import Mathlib

/-!
Verification of the Neo Notes backend (`backend/server.js`).

The server is a small Express application persisting a JSON array of notes
and exposing CRUD + search, plus an agent loop that lets a chat model invoke
the same operations as tools.  This file shallowly embeds the note service
and the agent loop as pure Lean functions and proves the specified
properties about them.

Modelling conventions:
- JS strings are Lean `String`s; `trim`, `toLowerCase`, `length`, `slice`
  and `includes` are embedded as the character-list functions `jsTrim`,
  `jsToLower`, `jsLength`, `List.take` and `strIncludes` below (they agree
  with the JS operations on ASCII input; JS counts UTF-16 units where these
  count characters).
- Optional / possibly-absent JS object fields are `Option` fields; `none`
  models `undefined` (an absent field).  Payload fields carrying strings are
  `Option String`: the code paths guarded by `typeof x === "string"` fire
  exactly on `some`.
- Timestamps are `Nat`.  All `Date.now()` / `new Date().toISOString()` reads
  performed inside one synchronous operation are modelled as a single
  instant `now` passed to the operation (the operation runs without
  yielding, so every clock read within it sees the same instant).
- The persisted file is the `List Note` threaded through each operation;
  an operation that does not call `writeNotes` returns its input list
  unchanged.
-/

namespace NeoNotes

/-- JS `s.toLowerCase()`: lowercase every character. -/
def jsToLower (s : String) : String := String.mk (s.data.map Char.toLower)

/-- JS `s.trim()`: strip leading and trailing whitespace. -/
def jsTrim (s : String) : String :=
  String.mk
    (((s.data.dropWhile Char.isWhitespace).reverse.dropWhile
        Char.isWhitespace).reverse)

/-- JS `s.length` (character count on the ASCII inputs in scope). -/
def jsLength (s : String) : Nat := s.data.length

/-- `ALLOWED_CATEGORIES = new Set(["general", "personal", "work", "ideas"])`. -/
def allowedCategories : List String := ["general", "personal", "work", "ideas"]

/-- `normalizeCategory(category)`: falsy (absent or empty string) input gives
"general"; otherwise lowercase and check membership in the allowed set,
falling back to "general". -/
def normalizeCategory (category : Option String) : String :=
  match category with
  | none => "general"
  | some c =>
    if c = "" then "general"
    else
      let value := jsToLower c
      if allowedCategories.contains value then value else "general"

/-- `normalizeColor(color)`: falsy (absent or empty string) input gives
"#ffffff"; otherwise the string is stored as given. -/
def normalizeColor (color : Option String) : String :=
  match color with
  | none => "#ffffff"
  | some c => if c = "" then "#ffffff" else c

/-- A persisted note record. -/
structure Note where
  id : Nat
  title : String
  text : String
  category : String
  color : String
  createdAt : Nat
  updatedAt : Nat
deriving DecidableEq, Repr

/-- The body accepted by `create` (`POST /api/notes` / the `create_note`
tool): four optional string fields. -/
structure NotePayload where
  title : Option String
  text : Option String
  category : Option String
  color : Option String
deriving DecidableEq, Repr

/-- The normalized fields produced by `buildNotePayload(payload)`:
title trimmed, replaced by "Untitled" when absent or blank after trimming;
text trimmed, empty when absent; category and color normalized. -/
structure NoteFields where
  title : String
  text : String
  category : String
  color : String
deriving DecidableEq, Repr

/-- `buildNotePayload(payload)` from `server.js`. -/
def buildNotePayload (payload : NotePayload) : NoteFields :=
  { title :=
      match payload.title with
      | some s => if jsTrim s = "" then "Untitled" else jsTrim s
      | none => "Untitled"
    text :=
      match payload.text with
      | some s => jsTrim s
      | none => ""
    category := normalizeCategory payload.category
    color := normalizeColor payload.color }

/-- `addNote(payload)`: builds the normalized fields, assigns
`id = Date.now()` and both timestamps at the current instant, appends the
new note and writes the collection back.  Returns the written collection
and the new note. -/
def addNote (notes : List Note) (payload : NotePayload) (now : Nat) :
    List Note × Note :=
  let base := buildNotePayload payload
  let newNote : Note :=
    { id := now, title := base.title, text := base.text,
      category := base.category, color := base.color,
      createdAt := now, updatedAt := now }
  (notes ++ [newNote], newNote)

/-- `getNoteById(id)`: `notes.find(n => n.id === id)`. -/
def getNoteById (notes : List Note) (id : Nat) : Option Note :=
  notes.find? (fun n => n.id == id)

/-- The body accepted by `update` (`PUT /api/notes/:id` / the `update_note`
tool): a partial payload of optional string fields. -/
structure UpdatePayload where
  title : Option String
  text : Option String
  category : Option String
  color : Option String
deriving DecidableEq, Repr

/-- The empty partial payload. -/
def emptyUpdate : UpdatePayload :=
  { title := none, text := none, category := none, color := none }

/-- The field-by-field update `updateNoteById` applies to the found note:
a present title is trimmed, and a blank trimmed title (falsy in
`updates.title.trim() || next.title`) keeps the previous title; a present
text is trimmed (empty string allowed); present category and color are
normalized; `updatedAt` is refreshed to the current instant. -/
def applyNoteUpdates (note : Note) (updates : UpdatePayload) (now : Nat) :
    Note :=
  let next := note
  let next :=
    match updates.title with
    | some s => { next with title := if jsTrim s = "" then next.title else jsTrim s }
    | none => next
  let next :=
    match updates.text with
    | some s => { next with text := jsTrim s }
    | none => next
  let next :=
    match updates.category with
    | some c => { next with category := normalizeCategory (some c) }
    | none => next
  let next :=
    match updates.color with
    | some c => { next with color := normalizeColor (some c) }
    | none => next
  { next with updatedAt := now }

/-- `updateNoteById(id, updates)`: finds the first note with the given id
(`findIndex`), returns `null` (here `none`) when there is none, otherwise
replaces that entry by the updated note and writes the collection back.
The structural recursion below is `findIndex` + in-place replacement:
it rewrites the first matching entry and leaves everything else as is. -/
def updateNoteById (notes : List Note) (id : Nat) (updates : UpdatePayload)
    (now : Nat) : Option (List Note × Note) :=
  match notes with
  | [] => none
  | n :: rest =>
    if n.id == id then
      let next := applyNoteUpdates n updates now
      some (next :: rest, next)
    else
      (updateNoteById rest id updates now).map fun q => (n :: q.1, q.2)

/-- `deleteNoteById(id)`: filters the note out; when nothing was removed
(lengths equal) it returns `false` without writing, otherwise it writes the
filtered collection and returns `true`.  The first component is the
persisted collection after the call. -/
def deleteNoteById (notes : List Note) (id : Nat) : List Note × Bool :=
  let nextNotes := notes.filter (fun n => !(n.id == id))
  if nextNotes.length = notes.length then
    (notes, false)
  else
    (nextNotes, true)

/-- Prefix test on character lists (the empty pattern is a prefix of
everything). -/
def charsPrefixOf : List Char → List Char → Bool
  | [], _ => true
  | _ :: _, [] => false
  | a :: as, b :: bs => a == b && charsPrefixOf as bs

/-- Substring occurrence test on character lists: the pattern is a prefix
of some suffix. -/
def charsContainsSub (pat : List Char) : List Char → Bool
  | [] => charsPrefixOf pat []
  | c :: rest => charsPrefixOf pat (c :: rest) || charsContainsSub pat rest

/-- JS `s.includes(pat)`: substring occurrence test. -/
def strIncludes (s pat : String) : Bool :=
  charsContainsSub pat.data s.data

/-- `searchNotes(query)`: lowercases the query and keeps the notes whose
lowercased title or lowercased text contains it as a substring. -/
def searchNotes (notes : List Note) (query : String) : List Note :=
  let normalized := jsToLower query
  notes.filter (fun note =>
    strIncludes (jsToLower note.title) normalized ||
    strIncludes (jsToLower note.text) normalized)

/-- `truncateText(text, limit)`: empty text stays empty; text within the
limit is returned as is; longer text is cut at the limit with "..."
appended. -/
def truncateText (text : String) (limit : Nat) : String :=
  if text = "" then ""
  else if jsLength text ≤ limit then text
  else String.mk (text.data.take limit) ++ "..."

/-!
The agent loop (`runAgent` in `server.js`).

The chat model is an external collaborator: it is modelled as an oracle
`model : List Msg → ModelResponse` mapping the working message list sent in
a round to the assistant message the model returns for it.  Tool-call
arguments arrive as a JSON string; `JSON.parse` of that string is modelled
as `Option ToolArgs` on the call, `none` standing for a string that fails
to parse (the `catch` branch, which substitutes the empty object).
`JSON.stringify` of a tool result is modelled by the injective rendering
`stringifyResult`.  The store and the `Date.now` instants the handlers will
observe are threaded as `AgentState`.
-/

/-- The arguments object of one tool call after JSON parsing: the union of
the fields admitted by the five tool schemas, all optional. -/
structure ToolArgs where
  id : Option Nat
  query : Option String
  title : Option String
  text : Option String
  category : Option String
  color : Option String
deriving DecidableEq, Repr

/-- The empty arguments object, used when the argument JSON is absent or
malformed, and recorded for an unknown tool. -/
def emptyToolArgs : ToolArgs :=
  { id := none, query := none, title := none, text := none,
    category := none, color := none }

/-- The projection `list_notes` / `search_notes` return per note:
id, title, category, updatedAt and a preview of the text. -/
structure NoteSummary where
  id : Nat
  title : String
  category : String
  updatedAt : Nat
  preview : String
deriving DecidableEq, Repr

/-- The per-note projection used by `list_notes` and `search_notes`;
the preview is `truncateText(note.text)` at the default limit 160. -/
def summarizeNote (note : Note) : NoteSummary :=
  { id := note.id, title := note.title, category := note.category,
    updatedAt := note.updatedAt, preview := truncateText note.text 160 }

/-- The JSON-serializable value a tool handler returns: `null` (JS
null/undefined), a boolean, a full note, a list of summaries, or an error
object carrying a message. -/
inductive ToolResult where
  | nullVal : ToolResult
  | boolVal : Bool → ToolResult
  | noteVal : Note → ToolResult
  | listVal : List NoteSummary → ToolResult
  | errorVal : String → ToolResult
deriving DecidableEq, Repr

/-- JS nullish coalescing `a ?? b`: `b` only when `a` is null/undefined.
A present falsy value such as `false` is kept. -/
def nullishOr (result fallback : ToolResult) : ToolResult :=
  match result with
  | ToolResult.nullVal => fallback
  | r => r

/-- The substituted result for a nullish handler result. -/
def noResultError : ToolResult := ToolResult.errorVal "No result"

/-- The store plus the upcoming `Date.now` instants, consumed one per
clock-reading handler invocation. -/
structure AgentState where
  notes : List Note
  clock : List Nat
deriving DecidableEq, Repr

/-- Read the next `Date.now` instant (0 when the modelled stream is
exhausted). -/
def readClock (st : AgentState) : Nat × AgentState :=
  match st.clock with
  | [] => (0, st)
  | t :: rest => (t, { st with clock := rest })

/-- The `list_notes` handler. -/
def handleListNotes (_args : ToolArgs) (st : AgentState) :
    ToolResult × AgentState :=
  (ToolResult.listVal (st.notes.map summarizeNote), st)

/-- The `search_notes` handler; an absent `query` behaves as the empty
string (`String(query || "")` inside `searchNotes`). -/
def handleSearchNotes (args : ToolArgs) (st : AgentState) :
    ToolResult × AgentState :=
  (ToolResult.listVal
    ((searchNotes st.notes (args.query.getD "")).map summarizeNote), st)

/-- The `create_note` handler: `addNote` on the full argument payload. -/
def handleCreateNote (args : ToolArgs) (st : AgentState) :
    ToolResult × AgentState :=
  let payload : NotePayload :=
    { title := args.title, text := args.text, category := args.category,
      color := args.color }
  let stepped := readClock st
  let added := addNote stepped.2.notes payload stepped.1
  (ToolResult.noteVal added.2, { stepped.2 with notes := added.1 })

/-- The `update_note` handler: `updateNoteById(Number(id), updates)`.  An
absent id coerces to NaN, which matches no note id, so the call returns
`null` without reading the clock; an unknown id also returns `null` before
the timestamp is taken. -/
def handleUpdateNote (args : ToolArgs) (st : AgentState) :
    ToolResult × AgentState :=
  match args.id with
  | none => (ToolResult.nullVal, st)
  | some i =>
    let upd : UpdatePayload :=
      { title := args.title, text := args.text, category := args.category,
        color := args.color }
    let stepped := readClock st
    match updateNoteById st.notes i upd stepped.1 with
    | none => (ToolResult.nullVal, st)
    | some (notes2, next) =>
      (ToolResult.noteVal next, { stepped.2 with notes := notes2 })

/-- The `delete_note` handler: `deleteNoteById(Number(id))`.  An absent id
coerces to NaN, which matches no note, so nothing is removed and the
handler returns `false`. -/
def handleDeleteNote (args : ToolArgs) (st : AgentState) :
    ToolResult × AgentState :=
  match args.id with
  | none => (ToolResult.boolVal false, st)
  | some i =>
    let deleted := deleteNoteById st.notes i
    (ToolResult.boolVal deleted.2, { st with notes := deleted.1 })

/-- The own properties of the `agentHandlers` object literal: tool name to
handler for the five registered tools, `none` for any other name.  The
source reads `agentHandlers[toolName]`, a JS property lookup that falls
through to the inherited members of `Object.prototype` when the name is
not an own property; that full read is modelled by `handlerObjectLookup`
below. -/
def agentHandlers (name : String) :
    Option (ToolArgs → AgentState → ToolResult × AgentState) :=
  if name = "list_notes" then some handleListNotes
  else if name = "search_notes" then some handleSearchNotes
  else if name = "create_note" then some handleCreateNote
  else if name = "update_note" then some handleUpdateNote
  else if name = "delete_note" then some handleDeleteNote
  else none

/-- One tool call as delivered by the model: its id, the tool name, and
the parsed argument JSON (`none` when parsing failed). -/
structure ToolCall where
  callId : String
  name : String
  args : Option ToolArgs
deriving DecidableEq, Repr

/-- A conversation message in the working list. -/
inductive Msg where
  | system : String → Msg
  | user : String → Msg
  | assistant : Option String → List ToolCall → Msg
  | tool : String → String → Msg
deriving DecidableEq, Repr

/-- The assistant message a chat-completion round returns: optional text
content plus the requested tool calls. -/
structure ModelResponse where
  content : Option String
  toolCalls : List ToolCall
deriving DecidableEq, Repr

/-- One entry of the action trail:
`actions.push({tool, input, result})`. -/
structure ToolAction where
  tool : String
  input : ToolArgs
  result : ToolResult
deriving DecidableEq, Repr

/-- The value `runAgent` resolves with, plus the ghost count of
chat-completion requests performed (for stating the round bound). -/
structure AgentResult where
  reply : String
  actions : List ToolAction
  modelCalls : Nat
deriving DecidableEq, Repr

/-- Abstract injective stand-in for `JSON.stringify` on a tool result:
the content string of the tool message fed back to the model. -/
def stringifyResult : ToolResult → String
  | ToolResult.nullVal => "null"
  | ToolResult.boolVal true => "true"
  | ToolResult.boolVal false => "false"
  | ToolResult.noteVal n => "note:" ++ toString n.id
  | ToolResult.listVal l => "list:" ++ toString l.length
  | ToolResult.errorVal msg => "error:" ++ msg

/-- Dispatch of one tool call inside a round: an unknown tool synthesizes
`error: Unknown tool: name`, records it with an empty input and feeds it
back; a known tool runs its handler on the parsed arguments (empty object
on a parse failure), normalizes a nullish result to `noResultError`,
records the normalized result and feeds it back as the tool message.
The `if (!handler)` guard is modelled over the object's own properties;
for the unregistered names that collide with inherited `Object.prototype`
members the source deviates from this branch — that behaviour is modelled
by `dispatchToolCallJs` below. -/
def dispatchToolCall (tc : ToolCall) (messages : List Msg) (st : AgentState)
    (actions : List ToolAction) : List Msg × AgentState × List ToolAction :=
  match agentHandlers tc.name with
  | none =>
    let errorResult := ToolResult.errorVal ("Unknown tool: " ++ tc.name)
    (messages ++ [Msg.tool tc.callId (stringifyResult errorResult)], st,
      actions ++ [{ tool := tc.name, input := emptyToolArgs,
                    result := errorResult }])
  | some handler =>
    let args := tc.args.getD emptyToolArgs
    let ran := handler args st
    let normalizedResult := nullishOr ran.1 noResultError
    (messages ++ [Msg.tool tc.callId (stringifyResult normalizedResult)],
      ran.2,
      actions ++ [{ tool := tc.name, input := args,
                    result := normalizedResult }])

/-- The `for (const toolCall of choice.tool_calls)` loop: dispatches the
round's tool calls in order, threading messages, state and trail. -/
def dispatchToolCalls : List ToolCall → List Msg → AgentState →
    List ToolAction → List Msg × AgentState × List ToolAction
  | [], messages, st, actions => (messages, st, actions)
  | tc :: rest, messages, st, actions =>
    let step := dispatchToolCall tc messages st actions
    dispatchToolCalls rest step.1 step.2.1 step.2.2

/-- An apostrophe (U+0027). -/
def apos : Char := Char.ofNat 39

/-- The fixed fallback reply returned when the round limit is exhausted. -/
def fallbackReply : String :=
  "I couldn" ++ String.singleton apos ++
    "t complete that request. Try again with more detail."

/-- JS `choice.content || "Done."`: absent or empty content is falsy. -/
def replyOrDone (content : Option String) : String :=
  match content with
  | none => "Done."
  | some c => if c = "" then "Done." else c

/-- The system prompt seeded at the head of the working message list. -/
def agentSystemPrompt : String :=
  String.intercalate " "
    ["You are an AI assistant for a notes app.",
     "Use tools to list, search, create, update, or delete notes.",
     "If a note id is required, ask for clarification or search first.",
     "When you complete an action, explain what changed.",
     "Keep responses concise."]

/-- The `for (let step = 0; step < 3; step += 1)` loop of `runAgent`:
`fuel` is the remaining rounds, `calls` the ghost count of model requests
so far.  When the model responds without tool calls the loop terminates
with that content (or "Done."); otherwise the assistant message and every
tool result are appended and the loop recurs; exhausted fuel yields the
fixed fallback reply with the accumulated actions. -/
def runAgentLoop (model : List Msg → ModelResponse) :
    Nat → List Msg → AgentState → List ToolAction → Nat →
    AgentResult × AgentState
  | 0, _, st, actions, calls =>
    ({ reply := fallbackReply, actions := actions, modelCalls := calls }, st)
  | fuel + 1, messages, st, actions, calls =>
    let choice := model messages
    if choice.toolCalls.isEmpty then
      ({ reply := replyOrDone choice.content, actions := actions,
         modelCalls := calls + 1 }, st)
    else
      let messages2 := messages ++ [Msg.assistant choice.content choice.toolCalls]
      let step := dispatchToolCalls choice.toolCalls messages2 st actions
      runAgentLoop model fuel step.1 step.2.1 step.2.2 (calls + 1)

/-- The fixed round limit of the agent loop. -/
def maxAgentRounds : Nat := 3

/-- `runAgent(message, history)`: seeds the working message list with the
system prompt, the (already filtered) history and the user message, then
runs at most `maxAgentRounds` rounds starting from an empty action trail. -/
def runAgent (message : String) (history : List Msg)
    (model : List Msg → ModelResponse) (st : AgentState) :
    AgentResult × AgentState :=
  let messages := Msg.system agentSystemPrompt :: (history ++ [Msg.user message])
  runAgentLoop model maxAgentRounds messages st [] 0

/-!
Concrete model oracles used to exercise the agent loop on closed runs.
-/

/-- A model that first requests `delete_note` on id 1 (the working list
holds only the system and user messages in the first round) and then
answers with plain text. -/
def deleteFalseModel (msgs : List Msg) : ModelResponse :=
  if msgs.length ≤ 2 then
    { content := none,
      toolCalls := [{ callId := "call1", name := "delete_note",
                      args := some { emptyToolArgs with id := some 1 } }] }
  else { content := some "Deleted.", toolCalls := [] }

/-- A model that requests `list_notes` in every round and never produces a
final text answer. -/
def alwaysToolModel (_msgs : List Msg) : ModelResponse :=
  { content := none,
    toolCalls := [{ callId := "c", name := "list_notes",
                    args := some emptyToolArgs }] }

/-!
The full JS property read `agentHandlers[toolName]` and the loop body it
guards.  A JS property lookup on an object literal that misses every own
property continues along the prototype chain into `Object.prototype`, so
for names such as "toString" or "hasOwnProperty" the read yields a truthy
inherited value and `if (!handler)` does not fire: the handler path runs
the inherited member instead of synthesizing the Unknown-tool error.
-/

/-- The function-valued members of `Object.prototype` (Node.js): reading
any of these names off the handler object yields an inherited, truthy,
callable value. -/
def objectPrototypeMethods : List String :=
  ["constructor", "hasOwnProperty", "isPrototypeOf", "propertyIsEnumerable",
   "toLocaleString", "toString", "valueOf",
   "__defineGetter__", "__defineSetter__", "__lookupGetter__",
   "__lookupSetter__"]

/-- The value produced by the property read `agentHandlers[toolName]`:
an own property for the five registered names; an inherited
`Object.prototype` function for its method names; the prototype object
itself (truthy but not callable) for the `__proto__` accessor; and
`undefined` — the only falsy outcome, hence the only way into the
`if (!handler)` branch — for every other name. -/
inductive HandlerLookup where
  | own : (ToolArgs → AgentState → ToolResult × AgentState) → HandlerLookup
  | inheritedMethod : String → HandlerLookup
  | protoObject : HandlerLookup
  | undef : HandlerLookup

/-- The JS property lookup `agentHandlers[toolName]` including the
prototype chain. -/
def handlerObjectLookup (name : String) : HandlerLookup :=
  match agentHandlers name with
  | some handler => HandlerLookup.own handler
  | none =>
    if objectPrototypeMethods.contains name then
      HandlerLookup.inheritedMethod name
    else if name = "__proto__" then HandlerLookup.protoObject
    else HandlerLookup.undef

/-- What calling an inherited `Object.prototype` member as
`handler(args)` does (receiver `undefined`, `args` the parsed argument
object): `toString` returns the string "[object Undefined]";
`constructor` is the `Object` function, which returns the argument object
itself; every other member throws a TypeError (they coerce their
`undefined` receiver with ToObject, or, for `toLocaleString`, read a
method off `undefined`). -/
inductive JsCallOutcome where
  | str : String → JsCallOutcome
  | argsObject : JsCallOutcome
  | typeError : JsCallOutcome
deriving DecidableEq, Repr

/-- Outcome of invoking the named inherited member with an `undefined`
receiver and an object argument. -/
def inheritedCallOutcome (name : String) : JsCallOutcome :=
  if name = "toString" then JsCallOutcome.str "[object Undefined]"
  else if name = "constructor" then JsCallOutcome.argsObject
  else JsCallOutcome.typeError

/-- What one iteration of the tool-call loop does for one call under the
full property read: the Unknown-tool error entry (only when the lookup is
`undefined`), a recorded handler result (registered names, normalized with
`??`), a recorded leaked value (inherited `toString` / `constructor`), or
a TypeError that escapes `runAgent` and surfaces at the HTTP layer as the
route's 500. -/
inductive JsDispatchOutcome where
  | unknownToolEntry : String → JsDispatchOutcome
  | recorded : ToolResult → JsDispatchOutcome
  | leakedString : String → JsDispatchOutcome
  | leakedArgsObject : JsDispatchOutcome
  | raisedTypeError : JsDispatchOutcome
deriving DecidableEq, Repr

/-- Faithful model of the loop body at server.js lines 292-321 for one
tool call, with the property read taken through the prototype chain. -/
def dispatchToolCallJs (tc : ToolCall) (st : AgentState) :
    JsDispatchOutcome :=
  match handlerObjectLookup tc.name with
  | HandlerLookup.undef =>
    JsDispatchOutcome.unknownToolEntry ("Unknown tool: " ++ tc.name)
  | HandlerLookup.own handler =>
    let args := tc.args.getD emptyToolArgs
    JsDispatchOutcome.recorded (nullishOr (handler args st).1 noResultError)
  | HandlerLookup.inheritedMethod name =>
    match inheritedCallOutcome name with
    | JsCallOutcome.str s => JsDispatchOutcome.leakedString s
    | JsCallOutcome.argsObject => JsDispatchOutcome.leakedArgsObject
    | JsCallOutcome.typeError => JsDispatchOutcome.raisedTypeError
  | HandlerLookup.protoObject => JsDispatchOutcome.raisedTypeError

/-! ### Helper lemmas -/

/-- `normalizeCategory` only ever produces a member of the closed category
set. -/
theorem normalizeCategory_mem (c : Option String) :
    normalizeCategory c ∈ allowedCategories := by
  cases c with
  | none => simp [normalizeCategory, allowedCategories]
  | some s =>
    simp only [normalizeCategory]
    split
    · simp [allowedCategories]
    · split
      · next h => exact List.elem_iff.mp h
      · simp [allowedCategories]

/-- Field-by-field description of `applyNoteUpdates`: present fields are
normalized, absent fields are kept, `id` and `createdAt` are never touched
and `updatedAt` becomes the current instant. -/
theorem applyNoteUpdates_fields (note : Note) (upd : UpdatePayload)
    (now : Nat) :
    applyNoteUpdates note upd now =
      { id := note.id
        title :=
          match upd.title with
          | some s => if jsTrim s = "" then note.title else jsTrim s
          | none => note.title
        text :=
          match upd.text with
          | some s => jsTrim s
          | none => note.text
        category :=
          match upd.category with
          | some c => normalizeCategory (some c)
          | none => note.category
        color :=
          match upd.color with
          | some c => normalizeColor (some c)
          | none => note.color
        createdAt := note.createdAt
        updatedAt := now } := by
  rcases upd with ⟨t, x, c, col⟩
  cases t <;> cases x <;> cases c <;> cases col <;> rfl

/-- A successful `updateNoteById` updates exactly the first note found
under the id. -/
theorem updateNoteById_eq_some (notes : List Note) (id : Nat)
    (upd : UpdatePayload) (now : Nat) (p : List Note × Note)
    (h : updateNoteById notes id upd now = some p) :
    ∃ old, getNoteById notes id = some old ∧
      p.2 = applyNoteUpdates old upd now := by
  induction notes generalizing p with
  | nil => simp [updateNoteById] at h
  | cons n rest ih =>
    simp only [updateNoteById] at h
    by_cases hn : (n.id == id) = true
    · rw [if_pos hn] at h
      injection h with h
      refine ⟨n, ?_, ?_⟩
      · rw [getNoteById, List.find?_cons_of_pos (p := fun m : Note => m.id == id) _ hn]
      · rw [← h]
    · rw [if_neg hn, Option.map_eq_some'] at h
      obtain ⟨q, hrec, hq⟩ := h
      obtain ⟨old, hfind, heq⟩ := ih q hrec
      refine ⟨old, ?_, ?_⟩
      · rw [getNoteById, List.find?_cons_of_neg (p := fun m : Note => m.id == id) _ hn]
        exact hfind
      · rw [← hq]
        exact heq

/-- A note found under an id can always be updated, and the updated entry
is `applyNoteUpdates` of the found note. -/
theorem updateNoteById_of_get (notes : List Note) (id : Nat)
    (upd : UpdatePayload) (now : Nat) (old : Note)
    (h : getNoteById notes id = some old) :
    ∃ notes2, updateNoteById notes id upd now =
      some (notes2, applyNoteUpdates old upd now) := by
  induction notes with
  | nil => simp [getNoteById] at h
  | cons n rest ih =>
    by_cases hn : (n.id == id) = true
    · have hn2 : n = old := by
        rw [getNoteById, List.find?_cons_of_pos (p := fun m : Note => m.id == id) _ hn] at h
        exact Option.some.inj h
      subst hn2
      refine ⟨applyNoteUpdates n upd now :: rest, ?_⟩
      simp only [updateNoteById]
      rw [if_pos hn]
    · have h2 : getNoteById rest id = some old := by
        rw [getNoteById, List.find?_cons_of_neg (p := fun m : Note => m.id == id) _ hn] at h
        exact h
      obtain ⟨notes2, hrec⟩ := ih h2
      refine ⟨n :: notes2, ?_⟩
      simp only [updateNoteById]
      rw [if_neg hn, hrec, Option.map_some']

/-- `updateNoteById` returns the not-found signal when no note carries the
id. -/
theorem updateNoteById_eq_none (notes : List Note) (id : Nat)
    (upd : UpdatePayload) (now : Nat)
    (h : ∀ n ∈ notes, n.id ≠ id) :
    updateNoteById notes id upd now = none := by
  induction notes with
  | nil => rfl
  | cons n rest ih =>
    have hn : ¬((n.id == id) = true) := by
      simp only [beq_iff_eq]
      exact h n (List.mem_cons_self n rest)
    have hrec := ih fun m hm => h m (List.mem_cons_of_mem n hm)
    simp only [updateNoteById]
    rw [if_neg hn, hrec, Option.map_none']

/-- A filter that removes nothing (equal lengths) is the identity. -/
theorem filter_eq_self_of_length_eq {α : Type} (p : α → Bool) (l : List α)
    (h : (l.filter p).length = l.length) : l.filter p = l := by
  induction l with
  | nil => rfl
  | cons a t ih =>
    by_cases hpa : p a = true
    · rw [List.filter_cons, if_pos hpa] at h ⊢
      rw [List.length_cons, List.length_cons] at h
      rw [ih (by omega)]
    · have hle := List.length_filter_le p t
      rw [List.filter_cons, if_neg hpa, List.length_cons] at h
      omega

/-- The empty pattern is a prefix of every character list. -/
theorem charsPrefixOf_nil (l : List Char) : charsPrefixOf [] l = true := by
  cases l <;> rfl

/-- The empty pattern occurs in every character list. -/
theorem charsContainsSub_nil (l : List Char) :
    charsContainsSub [] l = true := by
  cases l with
  | nil => rfl
  | cons c rest => simp [charsContainsSub, charsPrefixOf_nil]

/-- JS `s.includes("")` is always true. -/
theorem strIncludes_empty (s : String) : strIncludes s "" = true := by
  rw [strIncludes]
  exact charsContainsSub_nil s.data

/-! ### Claim theorems: the note service -/

/-- C4: whatever the payload, `create` stores a category drawn from the
closed set general / personal / work / ideas, a successful `update`
preserves that invariant, and `create` with category "bogus" stores
"general". -/
theorem stored_category_in_allowed_set (payload : NotePayload)
    (notes : List Note) (now : Nat) (id : Nat) (upd : UpdatePayload) :
    (addNote notes payload now).2.category ∈ allowedCategories ∧
    ((∀ n ∈ notes, n.category ∈ allowedCategories) →
      ∀ notes2 next, updateNoteById notes id upd now = some (notes2, next) →
        next.category ∈ allowedCategories) ∧
    (payload.category = some "bogus" →
      (addNote notes payload now).2.category = "general") := by
  refine ⟨normalizeCategory_mem payload.category, ?_, ?_⟩
  · intro hinv notes2 next h
    obtain ⟨old, hfind, heq⟩ :=
      updateNoteById_eq_some notes id upd now (notes2, next) h
    have hold : old ∈ notes := List.mem_of_find?_eq_some hfind
    have heq2 : next = applyNoteUpdates old upd now := heq
    subst heq2
    rw [applyNoteUpdates_fields]
    cases hc : upd.category with
    | some c => simpa [hc] using normalizeCategory_mem (some c)
    | none => simpa [hc] using hinv old hold
  · intro hc
    have hcat : (addNote notes payload now).2.category =
        normalizeCategory payload.category := rfl
    rw [hcat, hc]
    decide

/-- Witness for C4: on the concrete payload with category "bogus", the
created note's category is "general" and lies in the allowed set. -/
theorem stored_category_in_allowed_set_witness :
    (addNote [] { title := none, text := none, category := some "bogus",
                  color := none } 5).2.category = "general" ∧
    (addNote [] { title := none, text := none, category := some "bogus",
                  color := none } 5).2.category ∈ allowedCategories := by
  have h := stored_category_in_allowed_set
    { title := none, text := none, category := some "bogus", color := none }
    [] 5 0 emptyUpdate
  exact ⟨h.2.2 rfl, h.1⟩

/-- C5: `create` then `get` of the fresh id returns the note with the
trimmed title ("Untitled" when blank after trimming), the trimmed text
(empty when absent), the normalized category, the given color (defaulting
to "#ffffff"), and equal creation/update timestamps. -/
theorem create_then_get (notes : List Note) (payload : NotePayload)
    (now : Nat) (hfresh : ∀ n ∈ notes, n.id ≠ now) :
    getNoteById (addNote notes payload now).1
        (addNote notes payload now).2.id =
      some { id := now
             title :=
               (match payload.title with
                | some s => if jsTrim s = "" then "Untitled" else jsTrim s
                | none => "Untitled")
             text :=
               (match payload.text with
                | some s => jsTrim s
                | none => "")
             category := normalizeCategory payload.category
             color := normalizeColor payload.color
             createdAt := now
             updatedAt := now } ∧
    (addNote notes payload now).2.createdAt =
      (addNote notes payload now).2.updatedAt := by
  constructor
  · have h1 : List.find? (fun n : Note => n.id == now) notes = none :=
      List.find?_eq_none.mpr (fun x hx => by simpa using hfresh x hx)
    show List.find? (fun n : Note => n.id == now)
        (notes ++ [(addNote notes payload now).2]) = _
    rw [List.find?_append, h1]
    show List.find? (fun n : Note => n.id == now)
        [(addNote notes payload now).2] = _
    rw [List.find?_cons_of_pos (p := fun n : Note => n.id == now) _
      (by simp [addNote])]
    rfl
  · rfl

/-- Witness for C5: a concrete create-then-get round trip. -/
theorem create_then_get_witness :
    getNoteById
        (addNote [] { title := some "  A  ", text := some " B ",
                      category := some "WORK", color := none } 5).1
        (addNote [] { title := some "  A  ", text := some " B ",
                      category := some "WORK", color := none } 5).2.id =
      some { id := 5, title := "A", text := "B", category := "work",
             color := "#ffffff", createdAt := 5, updatedAt := 5 } := by
  have h := create_then_get []
    { title := some "  A  ", text := some " B ", category := some "WORK",
      color := none } 5 (by intro n hn; cases hn)
  rw [h.1]
  decide

/-- C6: updating an existing note with the empty partial payload only
refreshes `updatedAt`; any successful update keeps `id` and `createdAt`
and leaves every field absent from the payload untouched. -/
theorem update_empty_payload_frame (notes : List Note) (id : Nat)
    (old : Note) (now : Nat) (upd : UpdatePayload)
    (hold : getNoteById notes id = some old) :
    (∃ notes2, updateNoteById notes id emptyUpdate now =
        some (notes2, { old with updatedAt := now })) ∧
    ∀ notes2 next, updateNoteById notes id upd now = some (notes2, next) →
      next.id = old.id ∧ next.createdAt = old.createdAt ∧
      next.updatedAt = now ∧
      (upd.title = none → next.title = old.title) ∧
      (upd.text = none → next.text = old.text) ∧
      (upd.category = none → next.category = old.category) ∧
      (upd.color = none → next.color = old.color) := by
  constructor
  · obtain ⟨notes2, h2⟩ := updateNoteById_of_get notes id emptyUpdate now old hold
    refine ⟨notes2, ?_⟩
    rw [h2]
    simp [applyNoteUpdates_fields, emptyUpdate]
  · intro notes2 next h
    obtain ⟨old2, hfind, heq⟩ :=
      updateNoteById_eq_some notes id upd now (notes2, next) h
    rw [hold] at hfind
    obtain rfl : old = old2 := Option.some.inj hfind
    have heq2 : next = applyNoteUpdates old upd now := heq
    subst heq2
    refine ⟨?_, ?_, ?_, ?_, ?_, ?_, ?_⟩
    · simp [applyNoteUpdates_fields]
    · simp [applyNoteUpdates_fields]
    · simp [applyNoteUpdates_fields]
    · intro hx; simp [applyNoteUpdates_fields, hx]
    · intro hx; simp [applyNoteUpdates_fields, hx]
    · intro hx; simp [applyNoteUpdates_fields, hx]
    · intro hx; simp [applyNoteUpdates_fields, hx]

/-- Witness for C6: an empty-payload update of a concrete stored note. -/
theorem update_empty_payload_frame_witness :
    ∃ notes2,
      updateNoteById
          [{ id := 1, title := "T", text := "X", category := "work",
             color := "#abc", createdAt := 10, updatedAt := 10 }]
          1 emptyUpdate 20 =
        some (notes2,
          { id := 1, title := "T", text := "X", category := "work",
            color := "#abc", createdAt := 10, updatedAt := 20 }) := by
  exact (update_empty_payload_frame
    [{ id := 1, title := "T", text := "X", category := "work",
       color := "#abc", createdAt := 10, updatedAt := 10 }]
    1
    { id := 1, title := "T", text := "X", category := "work",
      color := "#abc", createdAt := 10, updatedAt := 10 }
    20 emptyUpdate (by decide)).1

/-- C7: when no stored note carries the requested id, `update` and
`delete` both return their not-found signal and the persisted collection
is unchanged (no write occurs). -/
theorem missing_id_is_noop (notes : List Note) (id : Nat)
    (upd : UpdatePayload) (now : Nat) (h : ∀ n ∈ notes, n.id ≠ id) :
    updateNoteById notes id upd now = none ∧
    deleteNoteById notes id = (notes, false) := by
  refine ⟨updateNoteById_eq_none notes id upd now h, ?_⟩
  have hfilter : notes.filter (fun n => !(n.id == id)) = notes :=
    List.filter_eq_self.mpr (by intro a ha; simpa using h a ha)
  simp [deleteNoteById, hfilter]

/-- Witness for C7: update and delete of an unknown id on a concrete
collection. -/
theorem missing_id_is_noop_witness :
    updateNoteById
        [{ id := 1, title := "T", text := "X", category := "work",
           color := "#abc", createdAt := 10, updatedAt := 10 }]
        2 emptyUpdate 0 = none ∧
    deleteNoteById
        [{ id := 1, title := "T", text := "X", category := "work",
           color := "#abc", createdAt := 10, updatedAt := 10 }]
        2 =
      ([{ id := 1, title := "T", text := "X", category := "work",
          color := "#abc", createdAt := 10, updatedAt := 10 }], false) := by
  exact missing_id_is_noop
    [{ id := 1, title := "T", text := "X", category := "work",
       color := "#abc", createdAt := 10, updatedAt := 10 }]
    2 emptyUpdate 0 (by decide)

/-- C8: `search` keeps exactly the notes whose lowercased title or text
contains the lowercased query as a substring (preserving storage order),
and the empty query returns the whole collection. -/
theorem search_matches_substring (notes : List Note) (query : String)
    (note : Note) :
    (note ∈ searchNotes notes query ↔
      note ∈ notes ∧
        (strIncludes (jsToLower note.title) (jsToLower query) ||
         strIncludes (jsToLower note.text) (jsToLower query)) = true) ∧
    searchNotes notes "" = notes := by
  constructor
  · simp [searchNotes, List.mem_filter]
  · have h0 : jsToLower "" = "" := rfl
    show notes.filter _ = notes
    refine List.filter_eq_self.mpr ?_
    intro a _
    rw [h0, strIncludes_empty]
    simp

/-- C9: deleting an id and then getting it always yields not-found,
whether or not the delete succeeded. -/
theorem delete_then_get_none (notes : List Note) (id : Nat) :
    getNoteById (deleteNoteById notes id).1 id = none := by
  simp only [getNoteById, deleteNoteById]
  split
  · next hlen =>
    have hfilter := filter_eq_self_of_length_eq _ notes hlen
    refine List.find?_eq_none.mpr ?_
    intro x hx
    have hx2 := (List.filter_eq_self.mp hfilter) x hx
    simpa using hx2
  · next _ =>
    refine List.find?_eq_none.mpr ?_
    intro x hx
    have hx2 := (List.mem_filter.mp hx).2
    simpa using hx2

/-- C10: an update whose payload carries a title that trims to the empty
string keeps the previous title (it is not blanked and not replaced by
"Untitled"), while `updatedAt` is still refreshed. -/
theorem blank_title_update_keeps_title (notes : List Note) (id : Nat)
    (old : Note) (upd : UpdatePayload) (s : String) (now : Nat)
    (hold : getNoteById notes id = some old)
    (htitle : upd.title = some s) (hblank : jsTrim s = "") :
    ∃ notes2 next, updateNoteById notes id upd now = some (notes2, next) ∧
      next.title = old.title ∧ next.updatedAt = now := by
  obtain ⟨notes2, h2⟩ := updateNoteById_of_get notes id upd now old hold
  refine ⟨notes2, applyNoteUpdates old upd now, h2, ?_, ?_⟩
  · simp [applyNoteUpdates_fields, htitle, hblank]
  · simp [applyNoteUpdates_fields]

/-- Witness for C10: a whitespace-only title update on a concrete note. -/
theorem blank_title_update_keeps_title_witness :
    ∃ notes2 next,
      updateNoteById
          [{ id := 1, title := "Keep", text := "X", category := "work",
             color := "#abc", createdAt := 10, updatedAt := 10 }]
          1
          { title := some "   ", text := none, category := none,
            color := none }
          30 = some (notes2, next) ∧
      next.title = "Keep" ∧ next.updatedAt = 30 := by
  exact blank_title_update_keeps_title
    [{ id := 1, title := "Keep", text := "X", category := "work",
       color := "#abc", createdAt := 10, updatedAt := 10 }]
    1
    { id := 1, title := "Keep", text := "X", category := "work",
      color := "#abc", createdAt := 10, updatedAt := 10 }
    { title := some "   ", text := none, category := none, color := none }
    "   " 30 (by decide) rfl (by decide)

/-! ### Agent loop lemmas -/

/-- One dispatched tool call extends the message list and trail by exactly
one entry each, independently of what they already hold. -/
theorem dispatchToolCall_acc (tc : ToolCall) (messages : List Msg)
    (st : AgentState) (acc : List ToolAction) :
    dispatchToolCall tc messages st acc =
      (messages ++ (dispatchToolCall tc [] st []).1,
       (dispatchToolCall tc [] st []).2.1,
       acc ++ (dispatchToolCall tc [] st []).2.2) := by
  cases hh : agentHandlers tc.name <;> simp [dispatchToolCall, hh]

/-- The messages and store produced by a round's dispatch do not depend on
the incoming action trail. -/
theorem dispatchToolCalls_indep (tcs : List ToolCall) :
    ∀ (messages : List Msg) (st : AgentState) (acc acc2 : List ToolAction),
      (dispatchToolCalls tcs messages st acc).1 =
        (dispatchToolCalls tcs messages st acc2).1 ∧
      (dispatchToolCalls tcs messages st acc).2.1 =
        (dispatchToolCalls tcs messages st acc2).2.1 := by
  induction tcs with
  | nil => intro messages st acc acc2; exact ⟨rfl, rfl⟩
  | cons tc rest ih =>
    intro messages st acc acc2
    simp only [dispatchToolCalls]
    rw [dispatchToolCall_acc tc messages st acc,
        dispatchToolCall_acc tc messages st acc2]
    exact ih _ _ _ _

/-- A round's dispatch returns the incoming trail extended by the entries
of this round, never a reset trail. -/
theorem dispatchToolCalls_actions_acc (tcs : List ToolCall) :
    ∀ (messages : List Msg) (st : AgentState) (acc : List ToolAction),
      (dispatchToolCalls tcs messages st acc).2.2 =
        acc ++ (dispatchToolCalls tcs messages st []).2.2 := by
  induction tcs with
  | nil => intro messages st acc; simp [dispatchToolCalls]
  | cons tc rest ih =>
    intro messages st acc
    simp only [dispatchToolCalls]
    rw [dispatchToolCall_acc tc messages st acc,
        dispatchToolCall_acc tc messages st []]
    simp only [List.nil_append]
    rw [ih (messages ++ (dispatchToolCall tc [] st []).1)
          ((dispatchToolCall tc [] st []).2.1)
          (acc ++ (dispatchToolCall tc [] st []).2.2),
        ih (messages ++ (dispatchToolCall tc [] st []).1)
          ((dispatchToolCall tc [] st []).2.1)
          ((dispatchToolCall tc [] st []).2.2)]
    rw [List.append_assoc]

/-- The loop never performs more model calls than it has fuel. -/
theorem runAgentLoop_modelCalls_le (model : List Msg → ModelResponse)
    (fuel : Nat) :
    ∀ (messages : List Msg) (st : AgentState) (acc : List ToolAction)
      (calls : Nat),
      (runAgentLoop model fuel messages st acc calls).1.modelCalls ≤
        calls + fuel := by
  induction fuel with
  | zero => intro messages st acc calls; simp [runAgentLoop]
  | succ fuel ih =>
    intro messages st acc calls
    simp only [runAgentLoop]
    by_cases hte : (model messages).toolCalls.isEmpty = true
    · rw [if_pos hte]
      simp only []
      omega
    · rw [if_neg hte]
      calc (runAgentLoop model fuel _ _ _ (calls + 1)).1.modelCalls ≤
            (calls + 1) + fuel := ih _ _ _ _
        _ = calls + (fuel + 1) := by omega

/-- The loop's final trail is its incoming accumulator extended by the
later rounds' entries. -/
theorem runAgentLoop_actions_acc (model : List Msg → ModelResponse)
    (fuel : Nat) :
    ∀ (messages : List Msg) (st : AgentState) (acc : List ToolAction)
      (calls : Nat),
      (runAgentLoop model fuel messages st acc calls).1.actions =
        acc ++ (runAgentLoop model fuel messages st [] calls).1.actions := by
  induction fuel with
  | zero => intro messages st acc calls; simp [runAgentLoop]
  | succ fuel ih =>
    intro messages st acc calls
    simp only [runAgentLoop]
    by_cases hte : (model messages).toolCalls.isEmpty = true
    · rw [if_pos hte, if_pos hte]
      simp
    · rw [if_neg hte]
      rw [if_neg hte]
      have hmsg := (dispatchToolCalls_indep (model messages).toolCalls
        (messages ++ [Msg.assistant (model messages).content
          (model messages).toolCalls]) st acc []).1
      have hst := (dispatchToolCalls_indep (model messages).toolCalls
        (messages ++ [Msg.assistant (model messages).content
          (model messages).toolCalls]) st acc []).2
      have hact := dispatchToolCalls_actions_acc (model messages).toolCalls
        (messages ++ [Msg.assistant (model messages).content
          (model messages).toolCalls]) st acc
      rw [hmsg, hst, hact]
      rw [ih _ _ _ (calls + 1), ih _ _
        ((dispatchToolCalls (model messages).toolCalls
          (messages ++ [Msg.assistant (model messages).content
            (model messages).toolCalls]) st []).2.2) (calls + 1)]
      rw [List.append_assoc]

/-- When the model answers every round with tool calls, the loop burns all
its fuel and ends with the fixed fallback reply. -/
theorem runAgentLoop_fallback (model : List Msg → ModelResponse)
    (hm : ∀ msgs, (model msgs).toolCalls ≠ []) (fuel : Nat) :
    ∀ (messages : List Msg) (st : AgentState) (acc : List ToolAction)
      (calls : Nat),
      (runAgentLoop model fuel messages st acc calls).1.reply =
          fallbackReply ∧
      (runAgentLoop model fuel messages st acc calls).1.modelCalls =
          calls + fuel := by
  induction fuel with
  | zero => intro messages st acc calls; simp [runAgentLoop]
  | succ fuel ih =>
    intro messages st acc calls
    have hte : ¬((model messages).toolCalls.isEmpty = true) := by
      simpa [List.isEmpty_iff] using hm messages
    simp only [runAgentLoop]
    rw [if_neg hte]
    refine ⟨(ih _ _ _ _).1, ?_⟩
    rw [(ih _ _ _ _).2]
    omega

/-! ### Claim theorems: the agent loop -/

/-- Counterexample to C1 as stated: `delete_note` on an unknown id returns
the falsy—but non-nullish—value `false`, and the action trail records the
result `false` itself, not the normalized `No result` error object: the
code normalizes with nullish coalescing (`??`), which keeps `false`. -/
theorem delete_false_recorded_as_false :
    (runAgent "delete note 1" [] deleteFalseModel
        { notes := [], clock := [] }).1.actions =
      [{ tool := "delete_note",
         input := { emptyToolArgs with id := some 1 },
         result := ToolResult.boolVal false }] ∧
    ToolResult.boolVal false ≠ noResultError := by
  refine ⟨by decide, by decide⟩

/-- C1 amended: a registered tool call records and feeds back
`result ?? ErrorNoResult`, where the substitution happens exactly for a
null/undefined handler result (for example `update_note` on an unknown
id); a present non-null result — including the `false` that `delete_note`
returns for an unknown id — is recorded and fed back unchanged. -/
theorem handler_result_nullish_normalization (tc : ToolCall)
    (handler : ToolArgs → AgentState → ToolResult × AgentState)
    (messages : List Msg) (st : AgentState) (actions : List ToolAction)
    (h : agentHandlers tc.name = some handler) :
    dispatchToolCall tc messages st actions =
      (messages ++ [Msg.tool tc.callId (stringifyResult
          (nullishOr (handler (tc.args.getD emptyToolArgs) st).1
            noResultError))],
       (handler (tc.args.getD emptyToolArgs) st).2,
       actions ++ [{ tool := tc.name,
                     input := tc.args.getD emptyToolArgs,
                     result := nullishOr
                       (handler (tc.args.getD emptyToolArgs) st).1
                       noResultError }]) ∧
    nullishOr ToolResult.nullVal noResultError = noResultError ∧
    (∀ r : ToolResult, r ≠ ToolResult.nullVal →
      nullishOr r noResultError = r) := by
  refine ⟨?_, rfl, ?_⟩
  · simp only [dispatchToolCall, h]
  · intro r hr
    cases r with
    | nullVal => exact absurd rfl hr
    | boolVal b => rfl
    | noteVal n => rfl
    | listVal l => rfl
    | errorVal m => rfl

/-- Witness for the amended C1: dispatching a concrete `delete_note` call
on an empty store records the non-normalized result `false`. -/
theorem handler_result_nullish_normalization_witness :
    (dispatchToolCall
        { callId := "c1", name := "delete_note",
          args := some { emptyToolArgs with id := some 1 } }
        [] { notes := [], clock := [] } []).2.2 =
      [{ tool := "delete_note",
         input := { emptyToolArgs with id := some 1 },
         result := ToolResult.boolVal false }] := by
  rw [(handler_result_nullish_normalization
      { callId := "c1", name := "delete_note",
        args := some { emptyToolArgs with id := some 1 } }
      handleDeleteNote [] { notes := [], clock := [] } [] rfl).1]
  decide

/-- C2: `runAgent` performs at most 3 model round-trips; the accumulated
trail is always carried forward by the loop (never reset); and when every
round responds with tool calls the run ends after exactly 3 round-trips
with the fixed fallback reply. -/
theorem agent_rounds_bounded (message : String) (history : List Msg)
    (model : List Msg → ModelResponse) (st : AgentState) :
    (runAgent message history model st).1.modelCalls ≤ 3 ∧
    (∀ fuel (messages : List Msg) (st2 : AgentState)
        (acc : List ToolAction) (calls : Nat),
      (runAgentLoop model fuel messages st2 acc calls).1.actions =
        acc ++ (runAgentLoop model fuel messages st2 [] calls).1.actions) ∧
    ((∀ msgs, (model msgs).toolCalls ≠ []) →
      (runAgent message history model st).1.reply = fallbackReply ∧
      (runAgent message history model st).1.modelCalls = 3) := by
  refine ⟨?_, ?_, ?_⟩
  · simpa [runAgent, maxAgentRounds] using
      runAgentLoop_modelCalls_le model 3
        (Msg.system agentSystemPrompt :: (history ++ [Msg.user message]))
        st [] 0
  · intro fuel messages st2 acc calls
    exact runAgentLoop_actions_acc model fuel messages st2 acc calls
  · intro hm
    have h := runAgentLoop_fallback model hm 3
      (Msg.system agentSystemPrompt :: (history ++ [Msg.user message]))
      st [] 0
    exact ⟨h.1, h.2⟩

/-- Witness for C2: a model that requests a tool in every round drives the
run into the fallback reply after exactly 3 model calls. -/
theorem agent_rounds_bounded_witness :
    (runAgent "hi" [] alwaysToolModel { notes := [], clock := [] }).1.reply =
        fallbackReply ∧
    (runAgent "hi" [] alwaysToolModel
        { notes := [], clock := [] }).1.modelCalls = 3 := by
  exact (agent_rounds_bounded "hi" [] alwaysToolModel
    { notes := [], clock := [] }).2.2
    (by intro msgs; simp [alwaysToolModel])

/-- C3 (code bug): the claim — one `Unknown tool` trail entry for every
unregistered name and no exception reaching the HTTP layer — is the
spec's documented containment design, but the guard `if (!handler)` reads
`agentHandlers[toolName]` through the prototype chain, so unregistered
names colliding with `Object.prototype` members never take the
Unknown-tool branch.  Evaluated at the failing inputs: "toString" runs
the inherited member and records the bare string "[object Undefined]"
instead of the error entry; "hasOwnProperty" and "__proto__" throw a
TypeError that escapes `runAgent` and surfaces at the HTTP layer as a
500; an ordinary unregistered name such as "bogus_tool" still produces
exactly the specified error entry. -/
theorem prototype_keys_escape_unknown_tool_branch :
    dispatchToolCallJs { callId := "t1", name := "toString", args := none }
        { notes := [], clock := [] } =
      JsDispatchOutcome.leakedString "[object Undefined]" ∧
    dispatchToolCallJs
        { callId := "h1", name := "hasOwnProperty", args := none }
        { notes := [], clock := [] } =
      JsDispatchOutcome.raisedTypeError ∧
    dispatchToolCallJs { callId := "p1", name := "__proto__", args := none }
        { notes := [], clock := [] } =
      JsDispatchOutcome.raisedTypeError ∧
    dispatchToolCallJs { callId := "b1", name := "bogus_tool", args := none }
        { notes := [], clock := [] } =
      JsDispatchOutcome.unknownToolEntry "Unknown tool: bogus_tool" := by
  refine ⟨by decide, by decide, by decide, by decide⟩

end NeoNotes
